import Mathlib

/-!
# Verification of the offline sync engine

Shallow embedding of the offline reconciliation core of the crop-disease
submission app: the record store (`db.js`), the submission factory
(`saveSubmission`) and the sync engine (`syncQueue`) from the sync-engine
module.  Statuses, ids and timestamps are modelled as strings, exactly as
in the JavaScript source; the payload (`data`) and the binary attachment
(`image`) are opaque strings.  The remote authority and the possibility of
failure of individual effects are modelled by explicit environments.
-/

/-- A submission record, as built by `saveSubmission` in the sync manager:
`{id, data, image, createdAt, status, response}`, plus the `syncedAt` and
`serverMessage` fields merged in by `updateStatus` on success (absent
fields are `none`). -/
structure Submission where
  id : String
  data : String
  image : Option String
  createdAt : String
  status : String
  response : Option String
  syncedAt : Option String
  serverMessage : Option String
  deriving Repr, DecidableEq

/-- The extra data merged into a record by `updateStatus` via
`Object.assign(item, extraData)`: a key that is absent (`none`) leaves the
record's field unchanged. -/
structure Extra where
  syncedAt : Option String := none
  serverMessage : Option String := none
  deriving Repr, DecidableEq

instance : Inhabited Extra := ⟨{}⟩

/-- The mutation `item.status = status; Object.assign(item, extraData)`
applied to one record inside `updateStatus`. -/
def applyUpdate (s : Submission) (status : String) (e : Extra) : Submission :=
  { s with
    status := status
    syncedAt := match e.syncedAt with | some v => some v | none => s.syncedAt
    serverMessage := match e.serverMessage with | some v => some v | none => s.serverMessage }

/-- The record store: the `submissions` object store of IndexedDB, keyed by
`id`.  Modelled as the list of records `db.getAll` would return. -/
abbrev Store := List Submission

/-- Model of `db.get(id)` on the keyed store: the record with this `id`,
if any. -/
def getRecord (store : Store) (id : String) : Option Submission :=
  store.find? (fun s => s.id == id)

/-- Model of `db.put(STORE_NAME, submission)` — the idempotent upsert keyed
by `id` performed by `saveSubmission` in `db.js` (imported as `dbSave` by
the sync manager). -/
def dbSave (store : Store) (r : Submission) : Store :=
  if store.any (fun s => s.id == r.id) then
    store.map (fun s => if s.id == r.id then r else s)
  else store ++ [r]

/-- Model of `getPendingSubmissions` from `db.js`: all records whose status
is `queued`, `syncing` or `uploading`. -/
def getPendingSubmissions (store : Store) : List Submission :=
  store.filter (fun item => item.status ∈ ["queued", "syncing", "uploading"])

/-- The comparator `(a, b) => new Date(b.createdAt) - new Date(a.createdAt)`
used by `getHistory`: descending by creation time (ISO-8601 timestamps
compare lexicographically). -/
def createdAtDesc (a b : Submission) : Prop := b.createdAt ≤ a.createdAt

instance : DecidableRel createdAtDesc := fun a b =>
  inferInstanceAs (Decidable (b.createdAt ≤ a.createdAt))

/-- Model of `getHistory` from `db.js`: all records with status `synced` or
`diagnosis_ready`, sorted descending by `createdAt`. -/
def getHistory (store : Store) : List Submission :=
  List.insertionSort createdAtDesc
    (store.filter (fun item => item.status = "synced" ∨ item.status = "diagnosis_ready"))

/-- Model of `updateStatus(id, status, extraData)` from `db.js`: fetch the
record by `id`; if present, set its status, merge the extra data and put it
back; if absent, do nothing. -/
def updateStatus (store : Store) (id status : String) (extra : Extra) : Store :=
  store.map (fun s => if s.id == id then applyUpdate s status extra else s)

/-- Model of `saveSubmission(data, imageFile)` from the sync manager: build
the record with a fresh uuid (`id`, supplied by the environment), the current
time (`now`), status `queued` and `response = null`, and persist it through
the store. Returns the record and the updated store. -/
def saveSubmission (id now data : String) (image : Option String)
    (store : Store) : Submission × Store :=
  let submission : Submission :=
    { id := id, data := data, image := image, createdAt := now
      status := "queued", response := none, syncedAt := none, serverMessage := none }
  (submission, dbSave store submission)

/-- The outcome of `fetch(BACKEND_URL, ...)` for one record, decided by the
remote authority: a 2xx response whose JSON body carries `message`, a
non-success response (`response.ok` false), or a thrown transport error. -/
inductive FetchOutcome where
  | ok (message : String)
  | httpError
  | netError
  deriving Repr, DecidableEq

/-- Whether the transmission succeeded (`response.ok`, with the response
payload parsed). -/
def FetchOutcome.isOk : FetchOutcome → Bool
  | .ok _ => true
  | _ => false

/-- The JSON sidecar `submissionData = {id, data, createdAt, status}`
appended to the `FormData` as the `submission` field. -/
structure Sidecar where
  id : String
  data : String
  createdAt : String
  status : String
  deriving Repr, DecidableEq

/-- The outbound request body: either `FormData` carrying the binary image
and the JSON sidecar, or the JSON body `{submissions: [item]}`. -/
inductive OutboundRequest where
  | multipart (image : String) (submission : Sidecar)
  | jsonBody (submissions : List Submission)
  deriving Repr, DecidableEq

/-- Constructing the outbound request for one item, following the
`if (item.image)` branch of `syncQueue`. -/
def buildRequest (item : Submission) : OutboundRequest :=
  match item.image with
  | some img =>
      .multipart img
        { id := item.id, data := item.data, createdAt := item.createdAt, status := item.status }
  | none => .jsonBody [item]

/-- The observable effects of one `syncQueue` run, in order: persisted
status transitions (`updateStatus` calls) and issued network requests
(`fetch` calls). -/
inductive Event where
  | write (id status : String) (extra : Extra)
  | request (req : OutboundRequest)
  deriving Repr, DecidableEq

/-- The network requests among a trace of events. -/
def requestsOf (trace : List Event) : List OutboundRequest :=
  trace.filterMap (fun e => match e with | .request r => some r | _ => none)

/-- The body of the `for (const item of queue)` loop of `syncQueue`, with
no store failure: mark the item `uploading`, build and issue the request,
then on success mark it `synced` with `syncedAt`/`serverMessage` and bump
the counter, and on a non-success response or a thrown transport error
revert it to `queued`. -/
def processItem (env : String → FetchOutcome) (now : String)
    (acc : Store × Nat × List Event) (item : Submission) : Store × Nat × List Event :=
  let store := acc.1
  let count := acc.2.1
  let trace := acc.2.2
  let store1 := updateStatus store item.id "uploading" {}
  let req := buildRequest item
  match env item.id with
  | .ok msg =>
      let extra : Extra := { syncedAt := some now, serverMessage := some msg }
      (updateStatus store1 item.id "synced" extra, count + 1,
        trace ++ [.write item.id "uploading" {}, .request req, .write item.id "synced" extra])
  | .httpError =>
      (updateStatus store1 item.id "queued" {}, count,
        trace ++ [.write item.id "uploading" {}, .request req, .write item.id "queued" {}])
  | .netError =>
      (updateStatus store1 item.id "queued" {}, count,
        trace ++ [.write item.id "uploading" {}, .request req, .write item.id "queued" {}])

/-- Model of `syncQueue()` from the sync manager, with no store failure:
fetch the
pending set; if empty return `{synced: 0}` immediately; otherwise process
the items serially and return the store, the count of successful
transitions, and the trace of effects. -/
def syncQueue (env : String → FetchOutcome) (now : String)
    (store : Store) : Store × Nat × List Event :=
  let queue := getPendingSubmissions store
  if queue.isEmpty then (store, 0, [])
  else queue.foldl (processItem env now) (store, 0, [])

/-! ## Fallible-effect model

`syncQueueE` and `saveSubmissionE` refine the model above with explicit
failure of each effect, reflecting that every `await`ed store operation and
every network call in the source can reject.  An `Except.error` is a
JavaScript exception propagating out of the function (the async function
rejecting); a failing store write leaves the store unchanged (per-record
writes are atomic). -/

/-- Which effects fail while processing one item: the initial
`updateStatus(id, 'uploading')` write, the fetch itself, `response.json()`,
the `updateStatus(id, 'synced', ...)` write, `response.text()`, the
`updateStatus(id, 'queued')` write in the non-success branch, and the
`updateStatus(id, 'queued')` write inside the `catch` handler. -/
structure ItemEnv where
  fetchOut : FetchOutcome
  upFail : Bool := false
  jsonFail : Bool := false
  syncedWriteFail : Bool := false
  textFail : Bool := false
  elseWriteFail : Bool := false
  catchWriteFail : Bool := false
  deriving Repr, DecidableEq

/-- The `catch` handler of the per-item loop: `updateStatus(item.id,
'queued')`.  If this write itself rejects, the exception propagates out of
`syncQueue` and aborts the run. -/
def catchHandler (e : ItemEnv) (id : String) (store : Store) (count : Nat) :
    Except Unit (Store × Nat) :=
  if e.catchWriteFail then .error ()
  else .ok (updateStatus store id "queued" {}, count)

/-- The loop body of `syncQueue` with fallible effects: everything inside
the `try` block is protected by the `catch` handler; only a failure of the
handler's own write escapes. -/
def processItemE (envE : String → ItemEnv) (now : String) (item : Submission)
    (store : Store) (count : Nat) : Except Unit (Store × Nat) :=
  let e := envE item.id
  if e.upFail then catchHandler e item.id store count
  else
    let store1 := updateStatus store item.id "uploading" {}
    match e.fetchOut with
    | .netError => catchHandler e item.id store1 count
    | .ok msg =>
        if e.jsonFail then catchHandler e item.id store1 count
        else if e.syncedWriteFail then catchHandler e item.id store1 count
        else
          .ok (updateStatus store1 item.id "synced"
                { syncedAt := some now, serverMessage := some msg }, count + 1)
    | .httpError =>
        if e.textFail then catchHandler e item.id store1 count
        else if e.elseWriteFail then catchHandler e item.id store1 count
        else .ok (updateStatus store1 item.id "queued" {}, count)

/-- The serial loop over the pending set with fallible effects; an escaped
exception aborts the remaining items. -/
def syncRunE (envE : String → ItemEnv) (now : String) :
    List Submission → Store → Nat → Except Unit (Store × Nat)
  | [], store, count => .ok (store, count)
  | item :: rest, store, count =>
      match processItemE envE now item store count with
      | .error e => .error e
      | .ok (store', count') => syncRunE envE now rest store' count'

/-- Model of `syncQueue()` with fallible effects: `readFail` is a Record
Store
failure while reading the pending set (the un-guarded
`await getPendingSubmissions()`), which rejects the whole run. -/
def syncQueueE (readFail : Bool) (envE : String → ItemEnv) (now : String)
    (store : Store) : Except Unit (Store × Nat) :=
  if readFail then .error ()
  else
    let queue := getPendingSubmissions store
    if queue.isEmpty then .ok (store, 0)
    else syncRunE envE now queue store 0

/-- Model of `saveSubmission` with a fallible store write: if `dbSave`
rejects, the
caller receives the exception instead of a record and the store is
unchanged. Returns the outcome together with the store afterwards. -/
def saveSubmissionE (writeFail : Bool) (id now data : String)
    (image : Option String) (store : Store) : Except Unit Submission × Store :=
  let submission : Submission :=
    { id := id, data := data, image := image, createdAt := now
      status := "queued", response := none, syncedAt := none, serverMessage := none }
  if writeFail then (.error (), store)
  else (.ok submission, dbSave store submission)

/-- The invariant that `syncedAt` and `serverMessage` are set exactly on
`synced` records. -/
def extrasConsistent (r : Submission) : Prop :=
  (r.syncedAt ≠ none ↔ r.status = "synced") ∧ (r.serverMessage ≠ none ↔ r.status = "synced")

instance : DecidablePred extrasConsistent := fun r => by
  unfold extrasConsistent
  infer_instance

/-- The environment of item effects in which nothing fails locally: only the
remote authority's answer varies. -/
def pureItemEnv (env : String → FetchOutcome) : String → ItemEnv :=
  fun id => { fetchOut := env id }

/-- The id(s) a request transmits to the remote authority: the sidecar's
`id` for a multipart request, the ids of the carried records for a JSON
request. -/
def requestIds : OutboundRequest → List String
  | .multipart _ sc => [sc.id]
  | .jsonBody subs => subs.map (·.id)

/-! ### Concrete fixtures used by witnesses and counterexamples -/

/-- A text-only queued record. -/
def wRecA : Submission :=
  { id := "a", data := "notes-a", image := none, createdAt := "2026-01-01T00:00:00Z"
    status := "queued", response := none, syncedAt := none, serverMessage := none }

/-- A queued record carrying an image attachment. -/
def wRecB : Submission :=
  { id := "b", data := "notes-b", image := some "blob-b", createdAt := "2026-01-02T00:00:00Z"
    status := "queued", response := none, syncedAt := none, serverMessage := none }

/-- A remote authority that rejects record `a` with a non-success response
and accepts everything else. -/
def wEnv : String → FetchOutcome :=
  fun id => if id = "a" then .httpError else .ok "Synced"

/-- A record in the `diagnosis_ready` state. -/
def cRecDiag : Submission :=
  { id := "d1", data := "diag", image := none, createdAt := "2026-01-03T00:00:00Z"
    status := "diagnosis_ready", response := none, syncedAt := none, serverMessage := none }

/-- A record in the legacy `syncing` state. -/
def cRecSyncing : Submission :=
  { id := "s1", data := "leg", image := none, createdAt := "2026-01-04T00:00:00Z"
    status := "syncing", response := none, syncedAt := none, serverMessage := none }

/-- An item environment in which the transmission throws and the
revert-to-`queued` write inside the `catch` handler also fails. -/
def cEnvFatal : String → ItemEnv :=
  fun _ => { fetchOut := .netError, catchWriteFail := true }

/-! ## Derived descriptions of one processed item -/

/-- The record a pending item becomes after its turn in the loop:
`uploading` then `synced` (with `syncedAt`/`serverMessage`) on success,
`uploading` then back to `queued` on a non-success response or a thrown
transport error. -/
def finalRecord (env : String → FetchOutcome) (now : String) (item : Submission) : Submission :=
  match env item.id with
  | .ok msg =>
      applyUpdate (applyUpdate item "uploading" {}) "synced"
        { syncedAt := some now, serverMessage := some msg }
  | .httpError => applyUpdate (applyUpdate item "uploading" {}) "queued" {}
  | .netError => applyUpdate (applyUpdate item "uploading" {}) "queued" {}

/-- The effects one item contributes to the trace, in source order: the
`uploading` write, the network request, and the final status write. -/
def itemEvents (env : String → FetchOutcome) (now : String) (item : Submission) : List Event :=
  match env item.id with
  | .ok msg =>
      [.write item.id "uploading" {}, .request (buildRequest item),
       .write item.id "synced" { syncedAt := some now, serverMessage := some msg }]
  | .httpError =>
      [.write item.id "uploading" {}, .request (buildRequest item), .write item.id "queued" {}]
  | .netError =>
      [.write item.id "uploading" {}, .request (buildRequest item), .write item.id "queued" {}]

/-! ## Store lemmas -/

theorem applyUpdate_id (s : Submission) (st : String) (e : Extra) :
    (applyUpdate s st e).id = s.id := rfl

theorem getRecord_updateStatus_ne (store : Store) (id id' st : String) (e : Extra)
    (h : id' ≠ id) :
    getRecord (updateStatus store id st e) id' = getRecord store id' := by
  induction store with
  | nil => rfl
  | cons s rest ih =>
      simp only [updateStatus, List.map_cons, getRecord] at ih ⊢
      by_cases hs : s.id = id
      · have hb : (s.id == id) = true := beq_iff_eq.mpr hs
        have hne : ((applyUpdate s st e).id == id') = false := by
          rw [applyUpdate_id, hs]; exact beq_false_of_ne (fun hc => h hc.symm)
        have hne' : (s.id == id') = false := by
          rw [hs]; exact beq_false_of_ne (fun hc => h hc.symm)
        rw [if_pos hb, List.find?_cons_of_neg _ (by simp [hne]),
          List.find?_cons_of_neg _ (by simp [hne'])]
        exact ih
      · have hb : (s.id == id) = false := beq_false_of_ne hs
        rw [if_neg (by simp [hb])]
        by_cases hs' : s.id = id'
        · rw [List.find?_cons_of_pos _ (by simp [hs']), List.find?_cons_of_pos _ (by simp [hs'])]
        · rw [List.find?_cons_of_neg _ (by simp [hs']), List.find?_cons_of_neg _ (by simp [hs'])]
          exact ih

theorem getRecord_updateStatus_eq (store : Store) (id st : String) (e : Extra)
    (r : Submission) (h : getRecord store id = some r) :
    getRecord (updateStatus store id st e) id = some (applyUpdate r st e) := by
  induction store with
  | nil => simp [getRecord] at h
  | cons s rest ih =>
      simp only [updateStatus, List.map_cons, getRecord] at ih h ⊢
      by_cases hs : s.id = id
      · have hb : (s.id == id) = true := beq_iff_eq.mpr hs
        rw [List.find?_cons_of_pos _ (by simp [hb])] at h
        rw [if_pos hb, List.find?_cons_of_pos _ (by simp [applyUpdate_id, hs])]
        cases h
        rfl
      · have hb : (s.id == id) = false := beq_false_of_ne hs
        rw [List.find?_cons_of_neg _ (by simp [hb])] at h
        rw [if_neg (by simp [hb]), List.find?_cons_of_neg _ (by simp [hb])]
        exact ih h

theorem updateStatus_map_id (store : Store) (id st : String) (e : Extra) :
    (updateStatus store id st e).map (·.id) = store.map (·.id) := by
  induction store with
  | nil => rfl
  | cons s rest ih =>
      simp only [updateStatus, List.map_cons] at ih ⊢
      rw [ih]
      by_cases hs : s.id = id
      · simp [hs, applyUpdate_id]
      · simp [hs]

theorem updateStatus_of_absent (store : Store) (id st : String) (e : Extra)
    (h : ∀ r ∈ store, r.id ≠ id) : updateStatus store id st e = store := by
  induction store with
  | nil => rfl
  | cons s rest ih =>
      simp only [updateStatus, List.map_cons]
      have h1 : (s.id == id) = false := beq_false_of_ne (h s (List.mem_cons_self s rest))
      rw [if_neg (by simp [h1])]
      simp only [List.cons.injEq, true_and]
      exact ih (fun r hr => h r (List.mem_cons_of_mem s hr))

theorem getRecord_of_mem_nodup (store : Store) (item : Submission)
    (hnd : (store.map (·.id)).Nodup) (hmem : item ∈ store) :
    getRecord store item.id = some item := by
  induction store with
  | nil => simp at hmem
  | cons s rest ih =>
      simp only [List.map_cons, List.nodup_cons] at hnd
      rcases List.mem_cons.mp hmem with heq | hmem'
      · subst heq
        simp [getRecord, List.find?_cons_of_pos]
      · have hne : s.id ≠ item.id := by
          intro hcontra
          exact hnd.1 (hcontra ▸ List.mem_map_of_mem (·.id) hmem')
        simp only [getRecord] at ih ⊢
        rw [List.find?_cons_of_neg _ (by simp [hne])]
        exact ih hnd.2 hmem'

/-! ## Per-item and fold lemmas for the sync loop -/

theorem processItem_store (env : String → FetchOutcome) (now : String)
    (acc : Store × Nat × List Event) (item : Submission) :
    (processItem env now acc item).1 =
      updateStatus (updateStatus acc.1 item.id "uploading" {}) item.id
        (match env item.id with | .ok _ => "synced" | _ => "queued")
        (match env item.id with
         | .ok msg => { syncedAt := some now, serverMessage := some msg }
         | _ => {}) := by
  cases henv : env item.id <;> simp [processItem, henv]

theorem processItem_count (env : String → FetchOutcome) (now : String)
    (acc : Store × Nat × List Event) (item : Submission) :
    (processItem env now acc item).2.1 =
      acc.2.1 + (if (env item.id).isOk then 1 else 0) := by
  cases henv : env item.id <;> simp [processItem, henv, FetchOutcome.isOk]

theorem processItem_trace (env : String → FetchOutcome) (now : String)
    (acc : Store × Nat × List Event) (item : Submission) :
    (processItem env now acc item).2.2 = acc.2.2 ++ itemEvents env now item := by
  cases henv : env item.id <;> simp [processItem, henv, itemEvents]

theorem processItem_getRecord_ne (env : String → FetchOutcome) (now : String)
    (acc : Store × Nat × List Event) (item : Submission) (j : String) (hj : j ≠ item.id) :
    getRecord (processItem env now acc item).1 j = getRecord acc.1 j := by
  rw [processItem_store, getRecord_updateStatus_ne _ _ _ _ _ hj,
    getRecord_updateStatus_ne _ _ _ _ _ hj]

theorem processItem_getRecord_self (env : String → FetchOutcome) (now : String)
    (acc : Store × Nat × List Event) (item : Submission)
    (hrec : getRecord acc.1 item.id = some item) :
    getRecord (processItem env now acc item).1 item.id = some (finalRecord env now item) := by
  have h1 := getRecord_updateStatus_eq acc.1 item.id "uploading" {} item hrec
  rw [processItem_store]
  cases henv : env item.id <;>
    rw [getRecord_updateStatus_eq _ _ _ _ _ h1] <;>
    simp [finalRecord, henv]

theorem processItem_map_id (env : String → FetchOutcome) (now : String)
    (acc : Store × Nat × List Event) (item : Submission) :
    ((processItem env now acc item).1).map (·.id) = acc.1.map (·.id) := by
  rw [processItem_store, updateStatus_map_id, updateStatus_map_id]

theorem foldl_processItem_trace (env : String → FetchOutcome) (now : String)
    (queue : List Submission) (acc : Store × Nat × List Event) :
    (queue.foldl (processItem env now) acc).2.2 =
      acc.2.2 ++ queue.flatMap (itemEvents env now) := by
  induction queue generalizing acc with
  | nil => simp
  | cons q qs ih =>
      rw [List.foldl_cons, ih, processItem_trace]
      simp [List.append_assoc]

theorem foldl_processItem_count (env : String → FetchOutcome) (now : String)
    (queue : List Submission) (acc : Store × Nat × List Event) :
    (queue.foldl (processItem env now) acc).2.1 =
      acc.2.1 + queue.countP (fun i => (env i.id).isOk) := by
  induction queue generalizing acc with
  | nil => simp
  | cons q qs ih =>
      rw [List.foldl_cons, ih, processItem_count, List.countP_cons]
      by_cases h : (env q.id).isOk
      · simp [h]
        omega
      · simp [h]

theorem foldl_processItem_map_id (env : String → FetchOutcome) (now : String)
    (queue : List Submission) (acc : Store × Nat × List Event) :
    ((queue.foldl (processItem env now) acc).1).map (·.id) = acc.1.map (·.id) := by
  induction queue generalizing acc with
  | nil => rfl
  | cons q qs ih => rw [List.foldl_cons, ih, processItem_map_id]

theorem foldl_processItem_getRecord_absent (env : String → FetchOutcome) (now : String)
    (queue : List Submission) (acc : Store × Nat × List Event) (j : String)
    (h : ∀ q ∈ queue, q.id ≠ j) :
    getRecord (queue.foldl (processItem env now) acc).1 j = getRecord acc.1 j := by
  induction queue generalizing acc with
  | nil => rfl
  | cons q qs ih =>
      rw [List.foldl_cons, ih _ (fun x hx => h x (List.mem_cons_of_mem q hx)),
        processItem_getRecord_ne]
      exact fun hc => h q (List.mem_cons_self q qs) hc.symm

theorem foldl_processItem_getRecord_mem (env : String → FetchOutcome) (now : String)
    (queue : List Submission) (acc : Store × Nat × List Event) (item : Submission)
    (hmem : item ∈ queue) (hnd : (queue.map (·.id)).Nodup)
    (hrec : getRecord acc.1 item.id = some item) :
    getRecord (queue.foldl (processItem env now) acc).1 item.id =
      some (finalRecord env now item) := by
  induction queue generalizing acc with
  | nil => simp at hmem
  | cons q qs ih =>
      simp only [List.map_cons, List.nodup_cons] at hnd
      rw [List.foldl_cons]
      rcases List.mem_cons.mp hmem with heq | hmem'
      · subst heq
        rw [foldl_processItem_getRecord_absent]
        · exact processItem_getRecord_self env now acc item hrec
        · intro x hx hc
          exact hnd.1 (hc ▸ List.mem_map_of_mem (·.id) hx)
      · have hne : item.id ≠ q.id := by
          intro hc
          exact hnd.1 (hc ▸ List.mem_map_of_mem (·.id) hmem')
        refine ih _ hmem' hnd.2 ?_
        rw [processItem_getRecord_ne _ _ _ _ _ hne]
        exact hrec

/-! ## Run-level lemmas -/

theorem syncQueue_eq_foldl (env : String → FetchOutcome) (now : String) (store : Store) :
    syncQueue env now store =
      (getPendingSubmissions store).foldl (processItem env now) (store, 0, []) := by
  rw [syncQueue]
  by_cases h : (getPendingSubmissions store).isEmpty
  · simp only [h, if_true]
    rw [List.isEmpty_iff.mp h]
    rfl
  · simp only [h, if_false]
    rfl

theorem pendingSubmissions_nodup (store : Store) (hnd : (store.map (·.id)).Nodup) :
    ((getPendingSubmissions store).map (·.id)).Nodup :=
  (List.Sublist.map (·.id) (List.filter_sublist store)).nodup hnd

theorem syncQueue_getRecord_pending (env : String → FetchOutcome) (now : String)
    (store : Store) (item : Submission)
    (hnd : (store.map (·.id)).Nodup) (hmem : item ∈ getPendingSubmissions store) :
    getRecord (syncQueue env now store).1 item.id = some (finalRecord env now item) := by
  rw [syncQueue_eq_foldl]
  exact foldl_processItem_getRecord_mem env now _ _ item hmem
    (pendingSubmissions_nodup store hnd)
    (getRecord_of_mem_nodup store item hnd (List.mem_filter.mp hmem).1)

theorem syncQueue_count (env : String → FetchOutcome) (now : String) (store : Store) :
    (syncQueue env now store).2.1 =
      (getPendingSubmissions store).countP (fun i => (env i.id).isOk) := by
  rw [syncQueue_eq_foldl, foldl_processItem_count]
  simp

theorem syncQueue_trace (env : String → FetchOutcome) (now : String) (store : Store) :
    (syncQueue env now store).2.2 =
      (getPendingSubmissions store).flatMap (itemEvents env now) := by
  rw [syncQueue_eq_foldl, foldl_processItem_trace]
  rfl

theorem syncQueue_map_id (env : String → FetchOutcome) (now : String) (store : Store) :
    ((syncQueue env now store).1).map (·.id) = store.map (·.id) := by
  rw [syncQueue_eq_foldl, foldl_processItem_map_id]

theorem syncQueue_getRecord_notPending (env : String → FetchOutcome) (now : String)
    (store : Store) (j : String)
    (h : ∀ q ∈ getPendingSubmissions store, q.id ≠ j) :
    getRecord (syncQueue env now store).1 j = getRecord store j := by
  rw [syncQueue_eq_foldl]
  exact foldl_processItem_getRecord_absent _ _ _ _ _ h

theorem requestsOf_itemEvents (env : String → FetchOutcome) (now : String) (item : Submission) :
    requestsOf (itemEvents env now item) = [buildRequest item] := by
  cases henv : env item.id <;> simp [itemEvents, henv, requestsOf]

theorem requestsOf_append (t1 t2 : List Event) :
    requestsOf (t1 ++ t2) = requestsOf t1 ++ requestsOf t2 := by
  simp [requestsOf, List.filterMap_append]

theorem syncQueue_requests (env : String → FetchOutcome) (now : String) (store : Store) :
    requestsOf (syncQueue env now store).2.2 =
      (getPendingSubmissions store).map buildRequest := by
  rw [syncQueue_trace]
  induction (getPendingSubmissions store) with
  | nil => rfl
  | cons q qs ih =>
      rw [List.flatMap_cons, requestsOf_append, requestsOf_itemEvents, List.map_cons, ih]
      rfl

theorem eq_of_mem_of_id_eq (store : Store) (hnd : (store.map (·.id)).Nodup)
    (a b : Submission) (ha : a ∈ store) (hb : b ∈ store) (hid : a.id = b.id) : a = b := by
  have h1 := getRecord_of_mem_nodup store a hnd ha
  have h2 := getRecord_of_mem_nodup store b hnd hb
  rw [hid, h2] at h1
  exact (Option.some_inj.mp h1).symm

theorem syncQueue_nodup (env : String → FetchOutcome) (now : String) (store : Store)
    (hnd : (store.map (·.id)).Nodup) :
    (((syncQueue env now store).1).map (·.id)).Nodup := by
  rw [syncQueue_map_id]
  exact hnd

theorem finalRecord_ok (env : String → FetchOutcome) (now : String) (item : Submission)
    (msg : String) (h : env item.id = .ok msg) :
    finalRecord env now item =
      { item with status := "synced", syncedAt := some now, serverMessage := some msg } := by
  simp [finalRecord, h, applyUpdate]

theorem finalRecord_fail (env : String → FetchOutcome) (now : String) (item : Submission)
    (h : env item.id = .httpError ∨ env item.id = .netError) :
    finalRecord env now item = { item with status := "queued" } := by
  rcases h with h | h <;> simp [finalRecord, h, applyUpdate]

theorem pending_status_mem (store : Store) (item : Submission)
    (hmem : item ∈ getPendingSubmissions store) :
    item.status = "queued" ∨ item.status = "syncing" ∨ item.status = "uploading" := by
  have h := (List.mem_filter.mp hmem).2
  simpa using h

theorem pending_status_ne_synced (store : Store) (item : Submission)
    (hmem : item ∈ getPendingSubmissions store) :
    item.status ≠ "synced" := by
  rcases pending_status_mem store item hmem with h | h | h <;> rw [h] <;> decide

/-! ## The syncedAt/serverMessage invariant -/

theorem pending_extras_none (store : Store) (item : Submission)
    (hmem : item ∈ getPendingSubmissions store) (hinv : extrasConsistent item) :
    item.syncedAt = none ∧ item.serverMessage = none := by
  have hne := pending_status_ne_synced store item hmem
  constructor
  · by_contra hc
    exact hne (hinv.1.mp hc)
  · by_contra hc
    exact hne (hinv.2.mp hc)

theorem syncQueue_extrasConsistent (env : String → FetchOutcome) (now : String)
    (store : Store) (hnd : (store.map (·.id)).Nodup)
    (hinv : ∀ r ∈ store, extrasConsistent r) :
    ∀ r ∈ (syncQueue env now store).1, extrasConsistent r := by
  intro r' hr'
  have hndF := syncQueue_nodup env now store hnd
  have hrecF : getRecord (syncQueue env now store).1 r'.id = some r' :=
    getRecord_of_mem_nodup _ r' hndF hr'
  have hidmem : r'.id ∈ store.map (·.id) := by
    rw [← syncQueue_map_id env now store]
    exact List.mem_map_of_mem (·.id) hr'
  rcases List.mem_map.mp hidmem with ⟨s, hs, hsid⟩
  by_cases hp : s ∈ getPendingSubmissions store
  · have hpend := syncQueue_getRecord_pending env now store s hnd hp
    rw [hsid, hrecF] at hpend
    have hr'eq : r' = finalRecord env now s := Option.some_inj.mp hpend
    rcases pending_extras_none store s hp (hinv s hs) with ⟨hsy, hsm⟩
    cases henv : env s.id with
    | ok msg =>
        rw [hr'eq, finalRecord_ok env now s msg henv]
        constructor <;> simp
    | httpError =>
        rw [hr'eq, finalRecord_fail env now s (Or.inl henv)]
        constructor <;> simp [hsy, hsm]
    | netError =>
        rw [hr'eq, finalRecord_fail env now s (Or.inr henv)]
        constructor <;> simp [hsy, hsm]
  · have hnotouch : ∀ q ∈ getPendingSubmissions store, q.id ≠ r'.id := by
      intro q hq hc
      have hqs : q = s :=
        eq_of_mem_of_id_eq store hnd q s (List.mem_filter.mp hq).1 hs (hc.trans hsid.symm)
      exact hp (hqs ▸ hq)
    have huntouched := syncQueue_getRecord_notPending env now store r'.id hnotouch
    rw [hrecF] at huntouched
    have hs' := getRecord_of_mem_nodup store s hnd hs
    rw [hsid] at hs'
    rw [hs'] at huntouched
    have : r' = s := Option.some_inj.mp huntouched
    rw [this]
    exact hinv s hs

/-! ## Lemmas about the fallible-effect model -/

theorem catchHandler_ok (e : ItemEnv) (id : String) (store : Store) (count : Nat)
    (h : e.catchWriteFail = false) :
    catchHandler e id store count = .ok (updateStatus store id "queued" {}, count) := by
  simp [catchHandler, h]

theorem processItemE_isOk (envE : String → ItemEnv) (now : String) (item : Submission)
    (store : Store) (count : Nat) (h : (envE item.id).catchWriteFail = false) :
    ∃ sc, processItemE envE now item store count = Except.ok sc := by
  rcases hE : envE item.id with ⟨fo, up, js, sw, tx, ew, cw⟩
  rw [hE] at h
  simp only at h
  subst h
  simp only [processItemE, hE, catchHandler]
  cases up <;> cases fo <;> cases js <;> cases sw <;> cases tx <;> cases ew <;>
    exact ⟨_, rfl⟩

theorem syncRunE_isOk (envE : String → ItemEnv) (now : String) (queue : List Submission)
    (store : Store) (count : Nat)
    (h : ∀ item ∈ queue, (envE item.id).catchWriteFail = false) :
    ∃ res, syncRunE envE now queue store count = Except.ok res := by
  induction queue generalizing store count with
  | nil => exact ⟨_, rfl⟩
  | cons q qs ih =>
      rcases processItemE_isOk envE now q store count
        (h q (List.mem_cons_self q qs)) with ⟨⟨store', count'⟩, hq⟩
      rcases ih store' count' (fun x hx => h x (List.mem_cons_of_mem q hx)) with ⟨res, hres⟩
      refine ⟨res, ?_⟩
      rw [syncRunE, hq]
      exact hres

theorem processItemE_pure (env : String → FetchOutcome) (now : String) (item : Submission)
    (store : Store) (count : Nat) (trace : List Event) :
    processItemE (pureItemEnv env) now item store count =
      Except.ok ((processItem env now (store, count, trace) item).1,
        (processItem env now (store, count, trace) item).2.1) := by
  cases henv : env item.id <;>
    simp [processItemE, pureItemEnv, processItem, catchHandler, henv]

theorem syncRunE_pure (env : String → FetchOutcome) (now : String) (queue : List Submission)
    (store : Store) (count : Nat) (trace : List Event) :
    syncRunE (pureItemEnv env) now queue store count =
      Except.ok ((queue.foldl (processItem env now) (store, count, trace)).1,
        (queue.foldl (processItem env now) (store, count, trace)).2.1) := by
  induction queue generalizing store count trace with
  | nil => rfl
  | cons q qs ih =>
      rw [syncRunE, processItemE_pure env now q store count trace, List.foldl_cons]
      have := ih (processItem env now (store, count, trace) q).1
        (processItem env now (store, count, trace) q).2.1
        (processItem env now (store, count, trace) q).2.2
      simpa using this

theorem syncQueueE_pure (env : String → FetchOutcome) (now : String) (store : Store) :
    syncQueueE false (pureItemEnv env) now store =
      Except.ok ((syncQueue env now store).1, (syncQueue env now store).2.1) := by
  rw [syncQueueE, syncQueue_eq_foldl]
  by_cases h : (getPendingSubmissions store).isEmpty
  · simp only [if_false, h, if_true, Bool.false_eq_true]
    rw [List.isEmpty_iff.mp h]
    rfl
  · simp only [if_false, h, Bool.false_eq_true]
    exact syncRunE_pure env now _ store 0 []

/-! ## Claims -/

/-- C1: for every record processed in a run whose transmission fails —
non-success response or thrown transport error — the record's status is set
back to `queued` in the store (all other fields preserved), the success
counter counts only the successful transmissions (so it is not incremented
for this record), and every pending record is still transmitted in the same
run (one item's failure never aborts the remaining items). -/
theorem syncQueue_failure_reverts_and_continues
    (env : String → FetchOutcome) (now : String) (store : Store) (item : Submission)
    (hnd : (store.map (·.id)).Nodup)
    (hmem : item ∈ getPendingSubmissions store)
    (hfail : env item.id = .httpError ∨ env item.id = .netError) :
    getRecord (syncQueue env now store).1 item.id = some { item with status := "queued" } ∧
    (syncQueue env now store).2.1 =
      (getPendingSubmissions store).countP (fun i => (env i.id).isOk) ∧
    requestsOf (syncQueue env now store).2.2 =
      (getPendingSubmissions store).map buildRequest := by
  refine ⟨?_, syncQueue_count env now store, syncQueue_requests env now store⟩
  rw [syncQueue_getRecord_pending env now store item hnd hmem,
    finalRecord_fail env now item hfail]

theorem syncQueue_failure_reverts_and_continues_witness :
    wEnv wRecA.id = .httpError ∧
    (getRecord (syncQueue wEnv "t1" [wRecA, wRecB]).1 wRecA.id =
        some { wRecA with status := "queued" } ∧
      (syncQueue wEnv "t1" [wRecA, wRecB]).2.1 =
        (getPendingSubmissions [wRecA, wRecB]).countP (fun i => (wEnv i.id).isOk) ∧
      requestsOf (syncQueue wEnv "t1" [wRecA, wRecB]).2.2 =
        (getPendingSubmissions [wRecA, wRecB]).map buildRequest) :=
  ⟨by decide,
    syncQueue_failure_reverts_and_continues wEnv "t1" [wRecA, wRecB] wRecA
      (by decide) (by decide) (Or.inl (by decide))⟩

/-- C2: `run()` returns as `synced` exactly the number of records whose
transmission succeeded in this run; on an empty pending set it returns
`{synced: 0}` with the store untouched and issues zero network calls. -/
theorem syncQueue_count_and_empty (env : String → FetchOutcome) (now : String) (store : Store) :
    (syncQueue env now store).2.1 =
      ((getPendingSubmissions store).filter (fun i => (env i.id).isOk)).length ∧
    (getPendingSubmissions store = [] →
      syncQueue env now store = (store, 0, []) ∧
      requestsOf (syncQueue env now store).2.2 = []) := by
  constructor
  · rw [syncQueue_count, List.countP_eq_length_filter]
  · intro h
    have hrun : syncQueue env now store = (store, 0, []) := by
      rw [syncQueue_eq_foldl, h]
      rfl
    exact ⟨hrun, by rw [hrun]; rfl⟩

theorem syncQueue_count_and_empty_witness :
    getPendingSubmissions ([] : Store) = [] ∧
    syncQueue wEnv "t1" [] = ([], 0, []) ∧
    requestsOf (syncQueue wEnv "t1" []).2.2 = [] :=
  ⟨rfl, (syncQueue_count_and_empty wEnv "t1" []).2 rfl⟩

/-- C3: the requests a run issues are exactly `buildRequest` of each pending
record, and `buildRequest` branches on the attachment: a non-null attachment
yields a multipart body carrying the binary plus the JSON sidecar
`{id, data, createdAt, status}` of the record; a null attachment yields the
JSON body `{submissions: [record]}`. -/
theorem syncQueue_request_shape (env : String → FetchOutcome) (now : String) (store : Store) :
    requestsOf (syncQueue env now store).2.2 =
      (getPendingSubmissions store).map buildRequest ∧
    (∀ (item : Submission) (img : String), item.image = some img →
      buildRequest item = .multipart img
        { id := item.id, data := item.data, createdAt := item.createdAt,
          status := item.status }) ∧
    (∀ item : Submission, item.image = none → buildRequest item = .jsonBody [item]) := by
  refine ⟨syncQueue_requests env now store, ?_, ?_⟩
  · intro item img h
    simp [buildRequest, h]
  · intro item h
    simp [buildRequest, h]

theorem syncQueue_request_shape_witness :
    wRecB.image = some "blob-b" ∧
    buildRequest wRecB = .multipart "blob-b"
      { id := wRecB.id, data := wRecB.data, createdAt := wRecB.createdAt,
        status := wRecB.status } ∧
    wRecA.image = none ∧
    buildRequest wRecA = .jsonBody [wRecA] :=
  ⟨rfl, (syncQueue_request_shape wEnv "t1" []).2.1 wRecB "blob-b" rfl,
    rfl, (syncQueue_request_shape wEnv "t1" []).2.2 wRecA rfl⟩

/-- C4: the fields `syncedAt` and `serverMessage` are set iff status is `synced` — the
invariant is preserved by a whole run — and on a successful transmission the
record transitions to `synced` with `syncedAt := now` and `serverMessage`
from the response payload, all carried by one single store update. -/
theorem syncQueue_extras_iff_synced
    (env : String → FetchOutcome) (now : String) (store : Store)
    (item : Submission) (msg : String)
    (hnd : (store.map (·.id)).Nodup)
    (hinv : ∀ r ∈ store, extrasConsistent r)
    (hmem : item ∈ getPendingSubmissions store)
    (hok : env item.id = .ok msg) :
    (∀ r ∈ (syncQueue env now store).1, extrasConsistent r) ∧
    getRecord (syncQueue env now store).1 item.id =
      some { item with
              status := "synced", syncedAt := some now,
              serverMessage := some msg } ∧
    Event.write item.id "synced" { syncedAt := some now, serverMessage := some msg } ∈
      (syncQueue env now store).2.2 := by
  refine ⟨syncQueue_extrasConsistent env now store hnd hinv, ?_, ?_⟩
  · rw [syncQueue_getRecord_pending env now store item hnd hmem,
      finalRecord_ok env now item msg hok]
  · rw [syncQueue_trace]
    exact List.mem_flatMap.mpr ⟨item, hmem, by simp [itemEvents, hok]⟩

theorem syncQueue_extras_iff_synced_witness :
    wEnv wRecB.id = .ok "Synced" ∧
    ((∀ r ∈ (syncQueue wEnv "t1" [wRecA, wRecB]).1, extrasConsistent r) ∧
      getRecord (syncQueue wEnv "t1" [wRecA, wRecB]).1 wRecB.id =
        some { wRecB with
                status := "synced", syncedAt := some "t1",
                serverMessage := some "Synced" } ∧
      Event.write wRecB.id "synced"
          { syncedAt := some "t1", serverMessage := some "Synced" } ∈
        (syncQueue wEnv "t1" [wRecA, wRecB]).2.2) :=
  ⟨by decide,
    syncQueue_extras_iff_synced wEnv "t1" [wRecA, wRecB] wRecB "Synced"
      (by decide) (by decide) (by decide) (by decide)⟩

/-- C5: a record's field `id` is never changed by the engine — `updateStatus`
preserves the stored ids, the per-record update keeps the `id` field, every
outbound request carries exactly the record's own `id`, the requests of a
run are `buildRequest` of each pending record, and a whole run preserves
the store's ids — so the same `id` is transmitted on every sync attempt,
including attempts after a reversion to `queued`. -/
theorem id_immutable_across_transitions
    (env : String → FetchOutcome) (now : String) (store : Store)
    (id st : String) (e : Extra) :
    (updateStatus store id st e).map (·.id) = store.map (·.id) ∧
    (∀ s : Submission, (applyUpdate s st e).id = s.id) ∧
    (∀ item : Submission, requestIds (buildRequest item) = [item.id]) ∧
    requestsOf (syncQueue env now store).2.2 =
      (getPendingSubmissions store).map buildRequest ∧
    ((syncQueue env now store).1).map (·.id) = store.map (·.id) := by
  refine ⟨updateStatus_map_id store id st e, fun s => rfl, ?_,
    syncQueue_requests env now store, syncQueue_map_id env now store⟩
  intro item
  cases h : item.image <;> simp [buildRequest, requestIds, h]

/-- C8: within a single run items are processed strictly serially — the
trace is the in-order concatenation of each pending record's three effects,
and each record's effects are exactly: persist `uploading`, then issue the
request, then persist the final transition (`synced` or back to `queued`).
Hence record k+1's request is never issued before record k's final status
transition is persisted. -/
theorem syncQueue_serial_trace (env : String → FetchOutcome) (now : String) (store : Store) :
    (syncQueue env now store).2.2 =
      (getPendingSubmissions store).flatMap (itemEvents env now) ∧
    ∀ item ∈ getPendingSubmissions store, ∃ fin ex,
      itemEvents env now item =
        [Event.write item.id "uploading" {}, Event.request (buildRequest item),
         Event.write item.id fin ex] ∧ (fin = "synced" ∨ fin = "queued") := by
  refine ⟨syncQueue_trace env now store, ?_⟩
  intro item _
  cases henv : env item.id with
  | ok msg =>
      exact ⟨"synced", { syncedAt := some now, serverMessage := some msg },
        by simp [itemEvents, henv], Or.inl rfl⟩
  | httpError => exact ⟨"queued", {}, by simp [itemEvents, henv], Or.inr rfl⟩
  | netError => exact ⟨"queued", {}, by simp [itemEvents, henv], Or.inr rfl⟩

theorem syncQueue_serial_trace_witness :
    (syncQueue wEnv "t1" [wRecA, wRecB]).2.2 =
      (getPendingSubmissions [wRecA, wRecB]).flatMap (itemEvents wEnv "t1") ∧
    ∃ fin ex, itemEvents wEnv "t1" wRecA =
        [Event.write wRecA.id "uploading" {}, Event.request (buildRequest wRecA),
         Event.write wRecA.id fin ex] ∧ (fin = "synced" ∨ fin = "queued") :=
  ⟨(syncQueue_serial_trace wEnv "t1" [wRecA, wRecB]).1,
    (syncQueue_serial_trace wEnv "t1" [wRecA, wRecB]).2 wRecA (by decide)⟩

/-- C10: a call of `updateStatus` aimed at an id that is not present in the store is a
silent no-op: it completes, creates no record, and leaves the entire store
contents unchanged — so an update aimed at a concurrently deleted record
never resurrects it. -/
theorem updateStatus_absent_id_noop (store : Store) (id st : String) (e : Extra)
    (h : getRecord store id = none) :
    updateStatus store id st e = store := by
  apply updateStatus_of_absent
  intro r hr hc
  rw [getRecord] at h
  exact List.find?_eq_none.mp h r hr (by simp [hc])

theorem updateStatus_absent_id_noop_witness :
    getRecord [wRecA, wRecB] "ghost" = none ∧
    updateStatus [wRecA, wRecB] "ghost" "synced"
      { syncedAt := some "t9", serverMessage := some "m" } = [wRecA, wRecB] :=
  ⟨by decide,
    updateStatus_absent_id_noop [wRecA, wRecB] "ghost" "synced"
      { syncedAt := some "t9", serverMessage := some "m" } (by decide)⟩

theorem mem_getHistory_iff (store : Store) (r : Submission) :
    r ∈ getHistory store ↔
      r ∈ store ∧ (r.status = "synced" ∨ r.status = "diagnosis_ready") := by
  rw [getHistory, (List.perm_insertionSort createdAtDesc _).mem_iff, List.mem_filter]
  simp

theorem mem_getPendingSubmissions_iff (store : Store) (r : Submission) :
    r ∈ getPendingSubmissions store ↔
      r ∈ store ∧ (r.status = "queued" ∨ r.status = "syncing" ∨ r.status = "uploading") := by
  rw [getPendingSubmissions, List.mem_filter]
  simp

/-- C6 counterexample: `getHistory` also returns `diagnosis_ready` records,
and `getPendingSubmissions` also returns `syncing` records, so the claimed
"exactly `synced`" / "exactly `{queued, uploading}`" characterizations fail
on this concrete store. -/
theorem history_pending_filters_counterexample :
    cRecDiag ∈ getHistory [cRecDiag, cRecSyncing] ∧
    cRecDiag.status ≠ "synced" ∧
    cRecSyncing ∈ getPendingSubmissions [cRecDiag, cRecSyncing] ∧
    cRecSyncing.status ≠ "queued" ∧ cRecSyncing.status ≠ "uploading" := by
  decide

/-- C6 (amended): the reader `getHistory` returns exactly the records with status
`synced` or `diagnosis_ready`, `getPendingSubmissions` exactly those with
status in `{queued, syncing, uploading}`; the two sets are always disjoint,
and they cover every stored record whose status lies in the five-status
lifecycle. -/
theorem history_pending_partition (store : Store) :
    (∀ r : Submission, r ∈ getHistory store ↔
        r ∈ store ∧ (r.status = "synced" ∨ r.status = "diagnosis_ready")) ∧
    (∀ r : Submission, r ∈ getPendingSubmissions store ↔
        r ∈ store ∧ (r.status = "queued" ∨ r.status = "syncing" ∨ r.status = "uploading")) ∧
    (∀ r : Submission, ¬(r ∈ getHistory store ∧ r ∈ getPendingSubmissions store)) ∧
    (∀ r ∈ store,
      r.status = "queued" ∨ r.status = "syncing" ∨ r.status = "uploading" ∨
        r.status = "synced" ∨ r.status = "diagnosis_ready" →
      r ∈ getPendingSubmissions store ∨ r ∈ getHistory store) := by
  refine ⟨mem_getHistory_iff store, mem_getPendingSubmissions_iff store, ?_, ?_⟩
  · rintro r ⟨hh, hp⟩
    rcases (mem_getHistory_iff store r).mp hh with ⟨-, hs⟩
    rcases (mem_getPendingSubmissions_iff store r).mp hp with ⟨-, hq⟩
    rcases hs with h1 | h1 <;> rcases hq with h2 | h2 | h2 <;> rw [h1] at h2 <;>
      exact absurd h2 (by decide)
  · intro r hr hst
    rcases hst with h | h | h | h | h
    · exact Or.inl ((mem_getPendingSubmissions_iff store r).mpr ⟨hr, Or.inl h⟩)
    · exact Or.inl ((mem_getPendingSubmissions_iff store r).mpr ⟨hr, Or.inr (Or.inl h)⟩)
    · exact Or.inl ((mem_getPendingSubmissions_iff store r).mpr ⟨hr, Or.inr (Or.inr h)⟩)
    · exact Or.inr ((mem_getHistory_iff store r).mpr ⟨hr, Or.inl h⟩)
    · exact Or.inr ((mem_getHistory_iff store r).mpr ⟨hr, Or.inr h⟩)

theorem history_pending_partition_witness :
    cRecSyncing ∈ getPendingSubmissions [cRecDiag, cRecSyncing] ∨
      cRecSyncing ∈ getHistory [cRecDiag, cRecSyncing] :=
  (history_pending_partition [cRecDiag, cRecSyncing]).2.2.2 cRecSyncing (by decide)
    (by decide)

/-- C7 counterexample: the pending-set read succeeds, yet a per-item error
(the transmission throws and the revert-to-`queued` write inside the
`catch` handler also fails) aborts the entire run — so a per-item status
write failure is fatal, contradicting the claim. -/
theorem syncQueueE_item_error_fatal :
    syncQueueE false cEnvFatal "t1" [wRecA] = Except.error () := rfl

/-- C7 (amended): every error raised inside an item's `try` block is caught
and the run completes with its aggregate count, provided the
revert-to-`queued` write inside the `catch` handler never fails; a
Record Store failure while reading the pending set — and only additionally
a failure of that handler write — aborts the run and surfaces. -/
theorem syncQueueE_abort_conditions (envE : String → ItemEnv) (now : String) (store : Store)
    (h : ∀ id, (envE id).catchWriteFail = false) :
    (syncQueueE false envE now store).isOk = true ∧
    syncQueueE true envE now store = Except.error () := by
  refine ⟨?_, rfl⟩
  have hok : ∃ res, syncQueueE false envE now store = Except.ok res := by
    simp only [syncQueueE, Bool.false_eq_true, if_false]
    by_cases hq : (getPendingSubmissions store).isEmpty
    · rw [if_pos hq]
      exact ⟨_, rfl⟩
    · rw [if_neg hq]
      exact syncRunE_isOk envE now _ store 0 (fun item _ => h item.id)
  rcases hok with ⟨res, hres⟩
  rw [hres]
  rfl

theorem syncQueueE_abort_conditions_witness :
    (syncQueueE false (pureItemEnv wEnv) "t1" [wRecA]).isOk = true ∧
      syncQueueE true (pureItemEnv wEnv) "t1" [wRecA] = Except.error () :=
  syncQueueE_abort_conditions (pureItemEnv wEnv) "t1" [wRecA] (fun _ => rfl)

theorem getRecord_dbSave (store : Store) (r : Submission) :
    getRecord (dbSave store r) r.id = some r := by
  induction store with
  | nil => simp [dbSave, getRecord]
  | cons s rest ih =>
      by_cases hs : s.id = r.id
      · have hany : (s :: rest).any (fun x => x.id == r.id) = true := by simp [hs]
        rw [dbSave, if_pos hany, List.map_cons, if_pos (by simp [hs]),
          getRecord, List.find?_cons_of_pos _ (by simp)]
      · by_cases hr : rest.any (fun x => x.id == r.id)
        · have hany : (s :: rest).any (fun x => x.id == r.id) = true := by
            simp [List.any_cons, hr]
          rw [dbSave, if_pos hany, List.map_cons, if_neg (by simp [hs]),
            getRecord, List.find?_cons_of_neg _ (by simp [hs])]
          rw [dbSave, if_pos hr, getRecord] at ih
          exact ih
        · have hany : ¬((s :: rest).any (fun x => x.id == r.id) = true) := by
            simp only [List.any_cons, Bool.or_eq_true, not_or]
            exact ⟨by simp [hs], hr⟩
          rw [dbSave, if_neg hany, getRecord, List.cons_append,
            List.find?_cons_of_neg _ (by simp [hs]), List.find?_append]
          have hnone : List.find? (fun x => x.id == r.id) rest = none := by
            refine List.find?_eq_none.mpr (fun x hx hc => ?_)
            exact hr (List.any_eq_true.mpr ⟨x, hx, hc⟩)
          rw [hnone]
          simp [List.find?]

theorem getRecord_eq_none_of_absent (store : Store) (id : String)
    (h : ∀ r ∈ store, r.id ≠ id) : getRecord store id = none := by
  refine List.find?_eq_none.mpr (fun x hx hc => ?_)
  exact h x hx (beq_iff_eq.mp hc)

/-- C9: the factory `create(payload, attachment)` builds a record with `createdAt` the
current time, status `queued` and `response = null`, persists it through the
store before returning it, and returns that exact record; if the store
write fails, the caller receives the exception instead of a record, the
store is unchanged, and (for a fresh id) no record with that id is
observable afterward. -/
theorem saveSubmission_creates_atomically
    (id now data : String) (image : Option String) (store : Store) :
    ((saveSubmission id now data image store).1.id = id ∧
     (saveSubmission id now data image store).1.createdAt = now ∧
     (saveSubmission id now data image store).1.status = "queued" ∧
     (saveSubmission id now data image store).1.response = none) ∧
    saveSubmissionE false id now data image store =
      (Except.ok (saveSubmission id now data image store).1,
        (saveSubmission id now data image store).2) ∧
    getRecord (saveSubmission id now data image store).2 id =
      some (saveSubmission id now data image store).1 ∧
    ((saveSubmissionE true id now data image store).1 = Except.error () ∧
     (saveSubmissionE true id now data image store).2 = store ∧
     ((∀ r ∈ store, r.id ≠ id) →
       getRecord (saveSubmissionE true id now data image store).2 id = none)) := by
  refine ⟨⟨rfl, rfl, rfl, rfl⟩, rfl, ?_, rfl, rfl, ?_⟩
  · exact getRecord_dbSave store _
  · intro h
    exact getRecord_eq_none_of_absent store id h

theorem saveSubmission_creates_atomically_witness :
    getRecord (saveSubmissionE true "fresh" "t2" "d" none [wRecA]).2 "fresh" = none :=
  (saveSubmission_creates_atomically "fresh" "t2" "d" none [wRecA]).2.2.2.2.2
    (by decide)
